import Mathlib

/-!
# split_video: the chunk controller

A shallow embedding of `src/split_video.c`: the picture-type rule
(`set_pict_type`), the chunk controller (`split_video`) and the argument
validation of `main`.

Modelling decisions.

* The decoder session (`DecoderContext`) is the finite list of frames that the
  successive calls of `read_frame` deliver; `read_frame` pops the head and
  answers `none` (the C `NULL`) on the empty list.
* The encoder side is observed through the list of operations the controller
  performs on it (`SinkOp`): `init_encoder` with the chunk index that is
  formatted into the file name, `write_video_frame` with the frame, its picture
  type and its pts, and the two halves of `close_encoder` (`flush_frames`, then
  trailer and release).
* C integers are `Int` with the C conversions and the undefined cases written
  out: the values parsed by `main` go through the conversion of the `strtoul`
  result to `int` or `long long`; `out_frame_num` goes through the conversion
  to the `int` parameter of `set_pict_type`; the `%` of `set_pict_type` and of
  the validation is the C remainder, undefined for a zero divisor; the
  increment of the `int` counter `chunk_count` is undefined at `INT_MAX`; the
  `int` product in the last line of the summary is undefined when it does not
  fit.  An undefined operation ends the run (`none`, `undefined`).  The two
  `long long` counters (`frame_count`, `out_frame_num`) count frames one by one
  and are not given an overflow case: it would take `2 ^ 63` frames.
* Failures of the libav calls (each ends the process inside the wrapper) are
  not part of the model: the input opens and every frame decodes.
-/

namespace SplitVideo

/-- The two picture types the controller assigns (`AV_PICTURE_TYPE_I`,
`AV_PICTURE_TYPE_P`). -/
inductive PictType
  | I
  | P
  deriving DecidableEq, Repr

/-- One operation of the controller on the output side. -/
inductive SinkOp (α : Type)
  /-- `init_encoder(outfilename, ...)`, the name being `outfmt` formatted with `index`. -/
  | init_encoder (index : Int)
  /-- `write_video_frame(ec, frame)` with the picture type and pts set on the frame. -/
  | write_video_frame (frame : α) (pict_type : PictType) (pts : Int)
  /-- `flush_frames(ec)`, the first statement of `close_encoder`. -/
  | flush_frames
  /-- `av_write_trailer`, `close_stream`, `avio_closep`: the rest of `close_encoder`. -/
  | close_output
  deriving DecidableEq, Repr

/-- `close_encoder(ec)`: flush the delayed frames, then write the trailer and
release the output. -/
def close_encoder {α : Type} : List (SinkOp α) :=
  [SinkOp.flush_frames, SinkOp.close_output]

/-! ## C integers -/

/-- `INT_MAX`. -/
def int_max : Int := 2 ^ 31 - 1

/-- The conversion `(int)` of an `unsigned long` value (two's complement, 32 bits). -/
def to_int (v : Nat) : Int :=
  if v % 2 ^ 32 < 2 ^ 31 then ((v % 2 ^ 32 : Nat) : Int) else ((v % 2 ^ 32 : Nat) : Int) - 2 ^ 32

/-- The conversion of an `unsigned long` value to `long long` (two's
complement, 64 bits). -/
def to_long_long (v : Nat) : Int :=
  if v % 2 ^ 64 < 2 ^ 63 then ((v % 2 ^ 64 : Nat) : Int) else ((v % 2 ^ 64 : Nat) : Int) - 2 ^ 64

/-- The conversion of a `long long` value to `int` (two's complement, 32
bits), as when `out_frame_num` is passed for the parameter `int frame_count`. -/
def long_long_to_int (v : Int) : Int :=
  (v + 2 ^ 31) % 2 ^ 32 - 2 ^ 31

/-- The C remainder `a % b` on `int`: undefined (`none`) for a zero divisor and
for `INT_MIN % -1`, the truncated remainder otherwise. -/
def c_rem (a b : Int) : Option Int :=
  if b = 0 ∨ (a = -(2 ^ 31) ∧ b = -1) then none else some (Int.tmod a b)

/-- The product `a * b` on `int`: undefined (`none`) when the result does not
fit in 32 bits. -/
def c_int_mul (a b : Int) : Option Int :=
  if -(2 ^ 31) ≤ a * b ∧ a * b < 2 ^ 31 then some (a * b) else none

/-! ## The chunk controller -/

/-- `set_pict_type(frame, gop_size, frame_count)` on its two `int` arguments:
`I` when the C remainder `frame_count % gop_size` is zero, `P` otherwise;
`none` when the remainder is undefined (`gop_size = 0`). -/
def set_pict_type (gop_size frame_count : Int) : Option PictType :=
  match c_rem frame_count gop_size with
  | none => none
  | some r => some (if r = 0 then PictType.I else PictType.P)

/-- The counters of `split_video`. -/
structure Counters where
  frame_count : Int
  out_frame_num : Int
  chunk_count : Int
  deriving DecidableEq, Repr

/-- The skip loop of `split_video`: `while (skip > 0)` read one frame and
decrement.  The `match` is the call `read_frame(dc)`: the empty list is the
`NULL` answer, on which the loop leaves through `exit(0)` (here `none`). -/
def skip_loop {α : Type} (skip : Int) (dc : List α) : Option (List α) :=
  if skip > 0 then
    match dc with
    | [] => none
    | _ :: rest => skip_loop (skip - 1) rest
  else some dc

/-- One pass through the body of the main loop with the frame `frame` just
read: the rotation when the open chunk is full (`close_encoder`, then
`chunk_count++`, undefined at `INT_MAX`, then `init_encoder`), the picture type
from `set_pict_type` on `out_frame_num` converted to `int`, the pts and the two
increments, then `write_video_frame`.  Gives the operations performed on the
output and the counters at the end of the iteration, `none` when the iteration
ran into an undefined operation. -/
def loop_body {α : Type} (gop_size chunk_size : Int) (frame : α) (st : Counters) :
    List (SinkOp α) × Option Counters :=
  let rot : List (SinkOp α) × Option Counters :=
    if st.out_frame_num = chunk_size then
      if st.chunk_count = int_max then (close_encoder, none)
      else
        (close_encoder ++ [SinkOp.init_encoder st.chunk_count],
          some { st with chunk_count := st.chunk_count + 1, out_frame_num := 0 })
    else ([], some st)
  match rot with
  | (ops, none) => (ops, none)
  | (ops, some st1) =>
    match set_pict_type gop_size (long_long_to_int st1.out_frame_num) with
    | none => (ops, none)
    | some pict =>
      (ops ++ [SinkOp.write_video_frame frame pict st1.out_frame_num],
        some { st1 with out_frame_num := st1.out_frame_num + 1,
                        frame_count := st1.frame_count + 1 })

/-- The main loop of `split_video`, from the counters `st` and the decoder
state `dc`: the operations performed on the output and the final counters,
`none` when an iteration ran into an undefined operation.  The `match` on `dc`
is the call `read_frame(dc)`, the empty list its `NULL` answer (`break`). -/
def main_loop {α : Type} (gop_size chunk_size length : Int) (dc : List α) (st : Counters) :
    List (SinkOp α) × Option Counters :=
  if length ≤ 0 ∨ st.frame_count < length then
    match dc with
    | [] => ([], some st)
    | frame :: rest =>
      match loop_body gop_size chunk_size frame st with
      | (ops, none) => (ops, none)
      | (ops, some st2) =>
        match main_loop gop_size chunk_size length rest st2 with
        | (ops2, fin) => (ops ++ ops2, fin)
  else ([], some st)

/-- How a call of `split_video` ends. -/
inductive SplitOutcome (α : Type)
  /-- The process left through `exit(status)` inside `split_video`. -/
  | exited (status : Int)
  /-- The function returned: the operations performed on the output and the
  counters printed in the summary. -/
  | returned (ops : List (SinkOp α)) (st : Counters)
  /-- The run reached an undefined operation (a division by zero or an `int`
  overflow) after performing the operations `ops`. -/
  | undefined (ops : List (SinkOp α))
  deriving DecidableEq, Repr

/-- `split_video(infilename, outfmt, gop_size, chunk_size, skip, length, opt)`
on an input whose decoder delivers the frames `dc`: the skip loop, the first
`init_encoder` (index 0, `chunk_count++` leaves the counter at 1), the main
loop and the final `close_encoder`. -/
def split_video {α : Type} (gop_size chunk_size skip length : Int) (dc : List α) :
    SplitOutcome α :=
  match skip_loop skip dc with
  | none => SplitOutcome.exited 0
  | some dc1 =>
    match main_loop gop_size chunk_size length dc1
      { frame_count := 0, out_frame_num := 0, chunk_count := 1 } with
    | (ops, none) => SplitOutcome.undefined (SinkOp.init_encoder 0 :: ops)
    | (ops, some st) =>
      SplitOutcome.returned (SinkOp.init_encoder 0 :: (ops ++ close_encoder)) st

/-- The operations a call performed on the output (none when the process
exited inside `split_video`). -/
def SplitOutcome.ops {α : Type} : SplitOutcome α → List (SinkOp α)
  | SplitOutcome.exited _ => []
  | SplitOutcome.returned ops _ => ops
  | SplitOutcome.undefined ops => ops

/-! ## The iterations of the main loop and the summary -/

/-- The counters at the end of each completed iteration of the main loop, in
order. -/
def loop_states {α : Type} (gop_size chunk_size length : Int) (dc : List α) (st : Counters) :
    List Counters :=
  if length ≤ 0 ∨ st.frame_count < length then
    match dc with
    | [] => []
    | frame :: rest =>
      match (loop_body gop_size chunk_size frame st).2 with
      | none => []
      | some st2 => st2 :: loop_states gop_size chunk_size length rest st2
  else []

/-- The count printed after `Read` in the summary of `split_video`:
`frame_count`. -/
def summary_read (st : Counters) : Int :=
  st.frame_count

/-- The total printed on the last line of the summary of `split_video`:
`(chunk_count-1) * chunk_size + out_frame_num`, the product being taken on
`int`. -/
def summary_total (chunk_size : Int) (st : Counters) : Option Int :=
  match c_int_mul (st.chunk_count - 1) chunk_size with
  | none => none
  | some p => some (p + st.out_frame_num)

/-! ## Observations on the output operations -/

/-- A frame as it was handed to `write_video_frame`. -/
structure WrittenFrame (α : Type) where
  frame : α
  pict_type : PictType
  pts : Int
  deriving DecidableEq, Repr

/-- Splits a list of operations at every `init_encoder`: the frames written
before the first `init_encoder` of the list, and then the frames written to
each output opened in the list. -/
def seg_aux {α : Type} : List (SinkOp α) → List (WrittenFrame α) × List (List (WrittenFrame α))
  | [] => ([], [])
  | SinkOp.init_encoder _ :: rest =>
    match seg_aux rest with
    | (cur, segs) => ([], cur :: segs)
  | SinkOp.write_video_frame f p t :: rest =>
    match seg_aux rest with
    | (cur, segs) => ({ frame := f, pict_type := p, pts := t } :: cur, segs)
  | SinkOp.flush_frames :: rest => seg_aux rest
  | SinkOp.close_output :: rest => seg_aux rest

/-- The output segments of a run, in the order they were opened: each is the
list of frames written between its `init_encoder` and the next one. -/
def segments {α : Type} (ops : List (SinkOp α)) : List (List (WrittenFrame α)) :=
  (seg_aux ops).2

/-- Number of `init_encoder` calls among the operations. -/
def opened {α : Type} : List (SinkOp α) → Nat
  | [] => 0
  | SinkOp.init_encoder _ :: rest => opened rest + 1
  | _ :: rest => opened rest

/-- Number of completed `close_encoder` calls (their final `close_output`). -/
def closed {α : Type} : List (SinkOp α) → Nat
  | [] => 0
  | SinkOp.close_output :: rest => closed rest + 1
  | _ :: rest => closed rest

/-- The life cycle of the output side: no segment open, one segment open, or
the open segment flushed and waiting for its trailer. -/
inductive SinkState
  | idle
  | writing
  | flushed
  deriving DecidableEq, Repr

/-- One step of the life cycle `init_encoder write_video_frame* flush_frames
close_output`; `none` when the operation is out of order. -/
def sink_step {α : Type} : SinkState → SinkOp α → Option SinkState
  | SinkState.idle, SinkOp.init_encoder _ => some SinkState.writing
  | SinkState.writing, SinkOp.write_video_frame _ _ _ => some SinkState.writing
  | SinkState.writing, SinkOp.flush_frames => some SinkState.flushed
  | SinkState.flushed, SinkOp.close_output => some SinkState.idle
  | _, _ => none

/-- Runs the life cycle over a list of operations. -/
def sink_run {α : Type} : SinkState → List (SinkOp α) → Option SinkState
  | s, [] => some s
  | s, op :: rest =>
    match sink_step s op with
    | none => none
    | some s1 => sink_run s1 rest

/-! ## Argument handling of `main` -/

/-- One answer of `getopt_long`, with the value `strtoul(optarg, &end, 10)` for
the options that take an argument. -/
inductive GetoptReturn
  /-- `'g'`: `--gop-size`. -/
  | g (value : Nat)
  /-- `'c'`: `--chunk-size`. -/
  | c (value : Nat)
  /-- `'s'`: `--skip`. -/
  | s (value : Nat)
  /-- `'n'`: `--length`. -/
  | n (value : Nat)
  /-- `'h'`. -/
  | h
  /-- `'?'`: an option `getopt_long` does not know. -/
  | unknown
  /-- Any other answer (the `default:` case of the switch). -/
  | other
  deriving DecidableEq, Repr

/-- The option variables of `main`. -/
structure Options where
  gop_size : Int
  chunk_size : Int
  skip : Int
  length : Int
  deriving DecidableEq, Repr

/-- The initial values of the option variables in `main`. -/
def default_options : Options :=
  { gop_size := 30, chunk_size := 120, skip := 0, length := -1 }

/-- How the option loop of `main` ends. -/
inductive ParseEnd
  /-- `getopt_long` answered `-1`: the loop is left with these values. -/
  | parsed (v : Options)
  /-- `exit(status)` inside the loop. -/
  | exited (status : Int)
  /-- `abort()` inside the loop. -/
  | aborted
  deriving DecidableEq, Repr

/-- The option loop of `main` over the successive answers of `getopt_long`
(the end of the list is the answer `-1`). -/
def parse_options : List GetoptReturn → Options → ParseEnd
  | [], v => ParseEnd.parsed v
  | GetoptReturn.g x :: rest, v => parse_options rest { v with gop_size := to_int x }
  | GetoptReturn.c x :: rest, v => parse_options rest { v with chunk_size := to_int x }
  | GetoptReturn.s x :: rest, v => parse_options rest { v with skip := to_int x }
  | GetoptReturn.n x :: rest, v => parse_options rest { v with length := to_long_long x }
  | GetoptReturn.h :: _, _ => ParseEnd.exited 0
  | GetoptReturn.unknown :: rest, v => parse_options rest v
  | GetoptReturn.other :: _, _ => ParseEnd.aborted

/-- How the process ends. -/
inductive ProcessEnd
  /-- Exit status of the process (`return` from `main` or `exit`). -/
  | status (code : Int)
  /-- `abort()`. -/
  | aborted
  /-- Undefined behaviour: the integer division of the validation faults, or
  `split_video` reached an undefined operation. -/
  | undefined
  deriving DecidableEq, Repr

/-- The call `split_video(input_file, output_template, gop_size, chunk_size,
skip, length, opt)` made by `main`: its arguments and how it ended. -/
structure SplitCall (α : Type) where
  gop_size : Int
  chunk_size : Int
  skip : Int
  length : Int
  outcome : SplitOutcome α
  deriving DecidableEq, Repr

/-- What a run of `main` did: how the process ended, and the call of
`split_video` when one was made. -/
structure MainResult (α : Type) where
  ending : ProcessEnd
  call : Option (SplitCall α)
  deriving DecidableEq, Repr

/-- The function `main`: `opts` are the answers of `getopt_long`, `positional`
is `argc - optind` after the option loop, and `input` are the frames the
decoder of `input_file` delivers. -/
def main {α : Type} (opts : List GetoptReturn) (positional : Int) (input : List α) :
    MainResult α :=
  match parse_options opts default_options with
  | ParseEnd.exited code => { ending := ProcessEnd.status code, call := none }
  | ParseEnd.aborted => { ending := ProcessEnd.aborted, call := none }
  | ParseEnd.parsed v =>
    match c_rem v.chunk_size v.gop_size with
    | none => { ending := ProcessEnd.undefined, call := none }
    | some r =>
      if r ≠ 0 then { ending := ProcessEnd.status 1, call := none }
      else if positional ≠ 2 then { ending := ProcessEnd.status 1, call := none }
      else
        let outcome := split_video v.gop_size v.chunk_size v.skip v.length input
        { ending :=
            match outcome with
            | SplitOutcome.exited code => ProcessEnd.status code
            | SplitOutcome.returned _ _ => ProcessEnd.status 0
            | SplitOutcome.undefined _ => ProcessEnd.undefined
          call := some
            { gop_size := v.gop_size, chunk_size := v.chunk_size, skip := v.skip,
              length := v.length, outcome := outcome } }

/-! ## Auxiliary definitions for the analysis of the main loop -/

/-- The picture type `set_pict_type` gives, when it gives one, for the value
`k` of `out_frame_num`. -/
def pict_of (g k : Int) : PictType :=
  if Int.tmod (long_long_to_int k) g = 0 then PictType.I else PictType.P

/-- A device for the proofs, not a model of the code: the main loop with its
undefined cases left out, the picture type of the frame written at
`out_frame_num = k` being `pict k`.  A completed run of `main_loop` is a run of
this loop (`main_loop_ref`), and `main_loop` completes when `gop_size > 0` and
the counter of chunks of this loop stays an `int` (`main_loop_total`).  No
claim is stated on it. -/
def ref_loop {α : Type} (pict : Int → PictType) (chunk_size length : Int) (dc : List α)
    (st : Counters) : List (SinkOp α) × Counters :=
  if length ≤ 0 ∨ st.frame_count < length then
    match dc with
    | [] => ([], st)
    | frame :: rest =>
      let rot : List (SinkOp α) × Counters :=
        if st.out_frame_num = chunk_size then
          (close_encoder ++ [SinkOp.init_encoder st.chunk_count],
            { st with chunk_count := st.chunk_count + 1, out_frame_num := 0 })
        else ([], st)
      let st1 := rot.2
      let st2 : Counters :=
        { st1 with out_frame_num := st1.out_frame_num + 1, frame_count := st1.frame_count + 1 }
      match ref_loop pict chunk_size length rest st2 with
      | (ops, fin) =>
        (rot.1 ++ SinkOp.write_video_frame frame (pict st1.out_frame_num) st1.out_frame_num
          :: ops, fin)
  else ([], st)

/-- The frames the main loop consumes from the decoder state `dc`. -/
def processed {α : Type} (L fc : Int) (dc : List α) : List α :=
  if 0 < L then dc.take (L - fc).toNat else dc

/-- The segments seen from inside a segment: `cur` are the frames already
written to the open segment, `ops` the operations that follow. -/
def segs_from {α : Type} (cur : List (WrittenFrame α)) (ops : List (SinkOp α)) :
    List (List (WrittenFrame α)) :=
  (cur ++ (seg_aux ops).1) :: (seg_aux ops).2

/-- The segments produced by the unbounded loop followed by the final
`close_encoder`, the open segment holding `cur` already. -/
def loop_segs {α : Type} (pict : Int → PictType) (c : Int) (dc : List α)
    (cur : List (WrittenFrame α)) (st : Counters) : List (List (WrittenFrame α)) :=
  segs_from cur ((ref_loop pict c 0 dc st).1 ++ close_encoder)

/-- The law of a segment: the frame at position `k` has pts `k` and the picture
type `pict k`. -/
def frame_law {α : Type} (pict : Int → PictType) (seg : List (WrittenFrame α)) : Prop :=
  ∀ (k : Nat) (w : WrittenFrame α), seg[k]? = some w →
    w.pts = (k : Int) ∧ w.pict_type = pict (k : Int)

/-- The frames a run processes: the input after the skipped frames, cut at
`length` frames when `length` is positive. -/
def run_frames {α : Type} (skip length : Int) (dc : List α) : List α :=
  processed length 0 (dc.drop skip.toNat)

/-- The counters at the entry of the main loop. -/
def initial_counters : Counters :=
  { frame_count := 0, out_frame_num := 0, chunk_count := 1 }

/-- The equation between the counters of `split_video`. -/
def counters_balanced (chunk_size : Int) (st : Counters) : Prop :=
  st.frame_count = (st.chunk_count - 1) * chunk_size + st.out_frame_num

/-- The operations of the run on three frames with `gop_size = 2` and
`chunk_size = 2`, used to instantiate the theorems. -/
def sample_ops : List (SinkOp Unit) :=
  [SinkOp.init_encoder 0,
   SinkOp.write_video_frame () PictType.I 0,
   SinkOp.write_video_frame () PictType.P 1,
   SinkOp.flush_frames, SinkOp.close_output,
   SinkOp.init_encoder 1,
   SinkOp.write_video_frame () PictType.I 0,
   SinkOp.flush_frames, SinkOp.close_output]

/-- The final counters of the same run. -/
def sample_counters : Counters :=
  { frame_count := 3, out_frame_num := 1, chunk_count := 2 }

/-- A source of `2 ^ 31 + 2` frames: with `chunk_size = 0` its last frame is
written at `out_frame_num = 2 ^ 31 + 1`, which is not an `int`. -/
def long_source : List Unit :=
  List.replicate (2 ^ 31 + 2) ()

theorem ref_loop_nil {α : Type} (pict : Int → PictType) (c L : Int) (st : Counters) :
    ref_loop pict c L ([] : List α) st = ([], st) := by
  unfold ref_loop
  split <;> rfl

theorem ref_loop_stop {α : Type} (pict : Int → PictType) (c L : Int) (dc : List α) (st : Counters)
    (h : ¬ (L ≤ 0 ∨ st.frame_count < L)) : ref_loop pict c L dc st = ([], st) := by
  unfold ref_loop
  rw [if_neg h]

theorem ref_loop_rotate {α : Type} (pict : Int → PictType) (c L : Int) (f : α) (rest : List α) (st : Counters)
    (h : L ≤ 0 ∨ st.frame_count < L) (hc : st.out_frame_num = c) :
    ref_loop pict c L (f :: rest) st =
      (SinkOp.flush_frames :: SinkOp.close_output :: SinkOp.init_encoder st.chunk_count ::
        SinkOp.write_video_frame f (pict 0) 0 ::
          (ref_loop pict c L rest
            { frame_count := st.frame_count + 1, out_frame_num := 1,
              chunk_count := st.chunk_count + 1 }).1,
       (ref_loop pict c L rest
            { frame_count := st.frame_count + 1, out_frame_num := 1,
              chunk_count := st.chunk_count + 1 }).2) := by
  rw [ref_loop, if_pos h]
  simp [hc, close_encoder]

theorem ref_loop_append {α : Type} (pict : Int → PictType) (c L : Int) (f : α) (rest : List α) (st : Counters)
    (h : L ≤ 0 ∨ st.frame_count < L) (hc : st.out_frame_num ≠ c) :
    ref_loop pict c L (f :: rest) st =
      (SinkOp.write_video_frame f (pict st.out_frame_num) st.out_frame_num ::
          (ref_loop pict c L rest
            { frame_count := st.frame_count + 1, out_frame_num := st.out_frame_num + 1,
              chunk_count := st.chunk_count }).1,
       (ref_loop pict c L rest
            { frame_count := st.frame_count + 1, out_frame_num := st.out_frame_num + 1,
              chunk_count := st.chunk_count }).2) := by
  rw [ref_loop, if_pos h]
  simp [hc]

theorem ref_loop_eq_unbounded {α : Type} (pict : Int → PictType) (c L : Int) (dc : List α) (st : Counters) :
    ref_loop pict c L dc st = ref_loop pict c 0 (processed L st.frame_count dc) st := by
  induction dc generalizing st with
  | nil => simp [processed, ref_loop_nil]
  | cons f rest ih =>
    by_cases h : L ≤ 0 ∨ st.frame_count < L
    · have hp : processed L st.frame_count (f :: rest)
          = f :: processed L (st.frame_count + 1) rest := by
        unfold processed
        by_cases hL : 0 < L
        · have h1 : st.frame_count < L := by omega
          have h2 : (L - st.frame_count).toNat = (L - (st.frame_count + 1)).toNat + 1 := by omega
          simp [hL, h2]
        · simp [hL]
      rw [hp]
      by_cases hc : st.out_frame_num = c
      · rw [ref_loop_rotate pict c L f rest st h hc,
          ref_loop_rotate pict c 0 f _ st (Or.inl (le_refl 0)) hc, ih]
      · rw [ref_loop_append pict c L f rest st h hc,
          ref_loop_append pict c 0 f _ st (Or.inl (le_refl 0)) hc, ih]
    · have hL : 0 < L := by omega
      have h2 : (L - st.frame_count).toNat = 0 := by omega
      rw [ref_loop_stop pict c L _ st h]
      simp [processed, hL, h2, ref_loop_nil]

theorem loop_segs_nil {α : Type} (pict : Int → PictType) (c : Int) (cur : List (WrittenFrame α)) (st : Counters) :
    loop_segs pict c ([] : List α) cur st = [cur] := by
  simp [loop_segs, segs_from, ref_loop_nil, close_encoder, seg_aux]

theorem loop_segs_rotate {α : Type} (pict : Int → PictType) (c : Int) (f : α) (rest : List α)
    (cur : List (WrittenFrame α)) (st : Counters) (hc : st.out_frame_num = c) :
    loop_segs pict c (f :: rest) cur st =
      cur :: loop_segs pict c rest [{ frame := f, pict_type := pict 0, pts := 0 }]
        { frame_count := st.frame_count + 1, out_frame_num := 1,
          chunk_count := st.chunk_count + 1 } := by
  simp [loop_segs, segs_from, ref_loop_rotate pict c 0 f rest st (Or.inl (le_refl 0)) hc, seg_aux]

theorem loop_segs_append {α : Type} (pict : Int → PictType) (c : Int) (f : α) (rest : List α)
    (cur : List (WrittenFrame α)) (st : Counters) (hc : st.out_frame_num ≠ c) :
    loop_segs pict c (f :: rest) cur st =
      loop_segs pict c rest
        (cur ++ [{ frame := f, pict_type := pict st.out_frame_num,
                   pts := st.out_frame_num }])
        { frame_count := st.frame_count + 1, out_frame_num := st.out_frame_num + 1,
          chunk_count := st.chunk_count } := by
  simp [loop_segs, segs_from, ref_loop_append pict c 0 f rest st (Or.inl (le_refl 0)) hc, seg_aux]

theorem loop_segs_ne_nil {α : Type} (pict : Int → PictType) (c : Int) (dc : List α)
    (cur : List (WrittenFrame α)) (st : Counters) : loop_segs pict c dc cur st ≠ [] := by
  simp [loop_segs, segs_from]

/-- The frames of the segments, in order, are the frames already written
followed by the frames of the decoder. -/
theorem loop_segs_frames {α : Type} (pict : Int → PictType) (c : Int) (dc : List α) :
    ∀ (cur : List (WrittenFrame α)) (st : Counters),
      ((loop_segs pict c dc cur st).flatten).map (fun w => w.frame)
        = cur.map (fun w => w.frame) ++ dc := by
  induction dc with
  | nil => intro cur st; simp [loop_segs_nil]
  | cons f rest ih =>
    intro cur st
    by_cases hc : st.out_frame_num = c
    · rw [loop_segs_rotate pict c f rest cur st hc]
      simp [ih]
    · rw [loop_segs_append pict c f rest cur st hc, ih]
      simp

theorem frame_law_append {α : Type} (pict : Int → PictType) (cur : List (WrittenFrame α)) (o : Int) (f : α)
    (h : frame_law pict cur) (ho : (cur.length : Int) = o) :
    frame_law pict (cur ++ [{ frame := f, pict_type := pict o, pts := o }]) := by
  intro k w hk
  by_cases hlt : k < cur.length
  · rw [List.getElem?_append_left hlt] at hk
    exact h k w hk
  · have hge : cur.length ≤ k := by omega
    rw [List.getElem?_append_right hge] at hk
    have hk0 : k - cur.length = 0 := by
      by_contra hne
      have : 1 ≤ k - cur.length := by omega
      rw [List.getElem?_eq_none (by simpa using this)] at hk
      exact absurd hk (by simp)
    rw [hk0] at hk
    simp at hk
    have hk1 : (k : Int) = o := by omega
    subst hk
    simp [hk1]

theorem loop_segs_law {α : Type} (pict : Int → PictType) (c : Int) (dc : List α) :
    ∀ (cur : List (WrittenFrame α)) (st : Counters),
      frame_law pict cur → (cur.length : Int) = st.out_frame_num →
      ∀ seg ∈ loop_segs pict c dc cur st, frame_law pict seg := by
  induction dc with
  | nil =>
    intro cur st h _ seg hseg
    rw [loop_segs_nil] at hseg
    simp at hseg
    rw [hseg]; exact h
  | cons f rest ih =>
    intro cur st h ho seg hseg
    by_cases hc : st.out_frame_num = c
    · rw [loop_segs_rotate pict c f rest cur st hc] at hseg
      rcases List.mem_cons.mp hseg with h1 | h1
      · rw [h1]; exact h
      · refine ih _ _ ?_ ?_ seg h1
        · have := frame_law_append pict ([] : List (WrittenFrame α)) 0 f
            (by intro k w hk; simp at hk) (by simp)
          simpa using this
        · simp
    · rw [loop_segs_append pict c f rest cur st hc] at hseg
      refine ih _ _ (frame_law_append pict cur _ f h ho) ?_ seg hseg
      simp
      omega

theorem getLast?_cons_ne_nil {β : Type} (a : β) (l : List β) (h : l ≠ []) :
    (a :: l).getLast? = l.getLast? := by
  cases l with
  | nil => exact absurd rfl h
  | cons b t => simp

/-- Sizes and counters of the unbounded loop, for a positive chunk size, from a
state whose open segment holds `out_frame_num` frames, at most `chunk_size`. -/
theorem loop_segs_sizes {α : Type} (pict : Int → PictType) (c : Int) (hcpos : 0 < c) (dc : List α) :
    ∀ (cur : List (WrittenFrame α)) (st : Counters),
      (cur.length : Int) = st.out_frame_num → st.out_frame_num ≤ c →
      (∀ seg ∈ (loop_segs pict c dc cur st).dropLast, (seg.length : Int) = c) ∧
      (∀ seg ∈ loop_segs pict c dc cur st, (seg.length : Int) ≤ c) ∧
      (∀ l, (loop_segs pict c dc cur st).getLast? = some l →
        (l.length : Int) = (ref_loop pict c 0 dc st).2.out_frame_num) ∧
      (dc ≠ [] → 1 ≤ (ref_loop pict c 0 dc st).2.out_frame_num) ∧
      (ref_loop pict c 0 dc st).2.out_frame_num ≤ c := by
  induction dc with
  | nil =>
    intro cur st ho hle
    simp [loop_segs_nil, ref_loop_nil]
    omega
  | cons f rest ih =>
    intro cur st ho hle
    by_cases hc : st.out_frame_num = c
    · have hne := loop_segs_ne_nil pict c rest
        [{ frame := f, pict_type := pict 0, pts := 0 }]
        { frame_count := st.frame_count + 1, out_frame_num := 1,
          chunk_count := st.chunk_count + 1 }
      obtain ⟨h1, h2, h3, h4, h5⟩ := ih
        [{ frame := f, pict_type := pict 0, pts := 0 }]
        { frame_count := st.frame_count + 1, out_frame_num := 1,
          chunk_count := st.chunk_count + 1 } (by simp) (by simp; omega)
      rw [loop_segs_rotate pict c f rest cur st hc,
        ref_loop_rotate pict c 0 f rest st (Or.inl (le_refl 0)) hc]
      refine ⟨?_, ?_, ?_, ?_, ?_⟩
      · intro seg hseg
        rw [List.dropLast_cons_of_ne_nil hne] at hseg
        rcases List.mem_cons.mp hseg with e | e
        · rw [e]; omega
        · exact h1 seg e
      · intro seg hseg
        rcases List.mem_cons.mp hseg with e | e
        · rw [e]; omega
        · exact h2 seg e
      · intro l hl
        rw [getLast?_cons_ne_nil _ _ hne] at hl
        exact h3 l hl
      · intro _
        cases rest with
        | nil => simp [ref_loop_nil]
        | cons f2 r2 => exact h4 (by simp)
      · exact h5
    · obtain ⟨h1, h2, h3, h4, h5⟩ := ih
        (cur ++ [{ frame := f, pict_type := pict st.out_frame_num,
                   pts := st.out_frame_num }])
        { frame_count := st.frame_count + 1, out_frame_num := st.out_frame_num + 1,
          chunk_count := st.chunk_count } (by simp; omega) (by simp; omega)
      rw [loop_segs_append pict c f rest cur st hc,
        ref_loop_append pict c 0 f rest st (Or.inl (le_refl 0)) hc]
      refine ⟨h1, h2, h3, ?_, h5⟩
      intro _
      cases rest with
      | nil => simp [ref_loop_nil]; omega
      | cons f2 r2 => exact h4 (by simp)

/-- The counters of the unbounded loop: every frame is counted once, and the
frames counted so far are those of the closed chunks plus the open one. -/
theorem ref_loop_counters {α : Type} (pict : Int → PictType) (c : Int) (dc : List α) :
    ∀ (st : Counters),
      (ref_loop pict c 0 dc st).2.frame_count = st.frame_count + dc.length ∧
      (ref_loop pict c 0 dc st).2.chunk_count * c + (ref_loop pict c 0 dc st).2.out_frame_num
        = st.chunk_count * c + st.out_frame_num + dc.length ∧
      (ref_loop pict c 0 dc st).2.chunk_count
        = st.chunk_count + opened (ref_loop pict c 0 dc st).1 := by
  induction dc with
  | nil => intro st; simp [ref_loop_nil, opened]
  | cons f rest ih =>
    intro st
    by_cases hc : st.out_frame_num = c
    · obtain ⟨h1, h2, h3⟩ := ih
        { frame_count := st.frame_count + 1, out_frame_num := 1,
          chunk_count := st.chunk_count + 1 }
      rw [ref_loop_rotate pict c 0 f rest st (Or.inl (le_refl 0)) hc]
      simp only [opened, List.length_cons, Nat.cast_add, Nat.cast_one] at h1 h2 h3 ⊢
      refine ⟨by omega, ?_, by omega⟩
      rw [h2, hc]; ring
    · obtain ⟨h1, h2, h3⟩ := ih
        { frame_count := st.frame_count + 1, out_frame_num := st.out_frame_num + 1,
          chunk_count := st.chunk_count }
      rw [ref_loop_append pict c 0 f rest st (Or.inl (le_refl 0)) hc]
      simp only [opened, List.length_cons, Nat.cast_add, Nat.cast_one] at h1 h2 h3 ⊢
      refine ⟨by omega, by omega, by omega⟩

theorem opened_append {α : Type} (a b : List (SinkOp α)) :
    opened (a ++ b) = opened a + opened b := by
  induction a with
  | nil => simp [opened]
  | cons op rest ih =>
    cases op <;> simp [opened, ih]
    omega

theorem closed_append {α : Type} (a b : List (SinkOp α)) :
    closed (a ++ b) = closed a + closed b := by
  induction a with
  | nil => simp [closed]
  | cons op rest ih =>
    cases op <;> simp [closed, ih]
    omega

theorem sink_run_append {α : Type} (a b : List (SinkOp α)) :
    ∀ s : SinkState, sink_run s (a ++ b) = (sink_run s a).bind (fun s1 => sink_run s1 b) := by
  induction a with
  | nil => intro s; simp [sink_run]
  | cons op rest ih =>
    intro s
    simp only [List.cons_append, sink_run]
    cases sink_step s op with
    | none => simp
    | some s1 => simp [ih]

/-- The main loop keeps the output side in the writing state, and closes as
many outputs as it opens. -/
theorem ref_loop_sink {α : Type} (pict : Int → PictType) (c : Int) (dc : List α) :
    ∀ (st : Counters),
      sink_run SinkState.writing (ref_loop pict c 0 dc st).1 = some SinkState.writing ∧
      closed (ref_loop pict c 0 dc st).1 = opened (ref_loop pict c 0 dc st).1 := by
  induction dc with
  | nil => intro st; simp [ref_loop_nil, sink_run, opened, closed]
  | cons f rest ih =>
    intro st
    by_cases hc : st.out_frame_num = c
    · rw [ref_loop_rotate pict c 0 f rest st (Or.inl (le_refl 0)) hc]
      simp [sink_run, sink_step, opened, closed, ih]
    · rw [ref_loop_append pict c 0 f rest st (Or.inl (le_refl 0)) hc]
      simp [sink_run, sink_step, opened, closed, ih]

/-! ## The main loop and the loop without undefined cases -/

theorem long_long_to_int_of_int (k : Int) (h0 : 0 ≤ k) (h1 : k < 2 ^ 31) :
    long_long_to_int k = k := by
  unfold long_long_to_int
  omega

theorem set_pict_type_pict_of (g k : Int) (p : PictType)
    (h : set_pict_type g (long_long_to_int k) = some p) : p = pict_of g k := by
  unfold set_pict_type at h
  cases hr : c_rem (long_long_to_int k) g with
  | none => simp [hr] at h
  | some r =>
    simp only [hr, Option.some.injEq] at h
    unfold c_rem at hr
    split at hr
    · simp at hr
    · simp only [Option.some.injEq] at hr
      unfold pict_of
      rw [hr, ← h]

theorem set_pict_type_pos (g k : Int) (hg : 0 < g) :
    set_pict_type g (long_long_to_int k) = some (pict_of g k) := by
  unfold set_pict_type c_rem pict_of
  rw [if_neg (by omega)]

theorem pict_of_nat (g : Int) (hg : 0 < g) (k : Nat) (hk : (k : Int) < 2 ^ 31) :
    pict_of g (k : Int) = if (k : Int) % g = 0 then PictType.I else PictType.P := by
  unfold pict_of
  rw [long_long_to_int_of_int _ (Int.natCast_nonneg k) hk,
    Int.tmod_eq_emod (Int.natCast_nonneg k) (le_of_lt hg)]

theorem loop_body_some {α : Type} (g c : Int) (f : α) (st st2 : Counters)
    (bops : List (SinkOp α)) (h : loop_body g c f st = (bops, some st2)) :
    (st.out_frame_num = c ∧ st.chunk_count ≠ int_max ∧
      bops = [SinkOp.flush_frames, SinkOp.close_output, SinkOp.init_encoder st.chunk_count,
        SinkOp.write_video_frame f (pict_of g 0) 0] ∧
      st2 = { frame_count := st.frame_count + 1, out_frame_num := 1,
              chunk_count := st.chunk_count + 1 }) ∨
    (st.out_frame_num ≠ c ∧
      bops = [SinkOp.write_video_frame f (pict_of g st.out_frame_num) st.out_frame_num] ∧
      st2 = { frame_count := st.frame_count + 1, out_frame_num := st.out_frame_num + 1,
              chunk_count := st.chunk_count }) := by
  unfold loop_body at h
  by_cases hc : st.out_frame_num = c
  · by_cases hm : st.chunk_count = int_max
    · simp [hc, hm] at h
    · left
      simp only [hc, hm, if_true, if_false] at h
      cases hp : set_pict_type g (long_long_to_int 0) with
      | none => simp [hp] at h
      | some p =>
        have := set_pict_type_pict_of g 0 p hp
        simp only [hp, Prod.mk.injEq, Option.some.injEq] at h
        refine ⟨hc, hm, ?_, ?_⟩
        · rw [← h.1, this]; simp [close_encoder]
        · rw [← h.2]; simp
  · right
    simp only [hc, if_false] at h
    cases hp : set_pict_type g (long_long_to_int st.out_frame_num) with
    | none => simp [hp] at h
    | some p =>
      have := set_pict_type_pict_of g st.out_frame_num p hp
      simp only [hp, Prod.mk.injEq, Option.some.injEq] at h
      refine ⟨hc, ?_, ?_⟩
      · rw [← h.1, this]; simp
      · rw [← h.2]

theorem loop_body_rotate {α : Type} (g c : Int) (hg : 0 < g) (f : α) (st : Counters)
    (hc : st.out_frame_num = c) (hm : st.chunk_count ≠ int_max) :
    loop_body g c f st =
      ([SinkOp.flush_frames, SinkOp.close_output, SinkOp.init_encoder st.chunk_count,
        SinkOp.write_video_frame f (pict_of g 0) 0],
       some { frame_count := st.frame_count + 1, out_frame_num := 1,
              chunk_count := st.chunk_count + 1 }) := by
  unfold loop_body
  simp [hc, hm, set_pict_type_pos g 0 hg, close_encoder]

theorem loop_body_append {α : Type} (g c : Int) (hg : 0 < g) (f : α) (st : Counters)
    (hc : st.out_frame_num ≠ c) :
    loop_body g c f st =
      ([SinkOp.write_video_frame f (pict_of g st.out_frame_num) st.out_frame_num],
       some { frame_count := st.frame_count + 1, out_frame_num := st.out_frame_num + 1,
              chunk_count := st.chunk_count }) := by
  unfold loop_body
  simp [hc, set_pict_type_pos g st.out_frame_num hg]

theorem main_loop_nil {α : Type} (g c L : Int) (st : Counters) :
    main_loop g c L ([] : List α) st = ([], some st) := by
  unfold main_loop
  split <;> rfl

theorem main_loop_stop {α : Type} (g c L : Int) (dc : List α) (st : Counters)
    (h : ¬ (L ≤ 0 ∨ st.frame_count < L)) : main_loop g c L dc st = ([], some st) := by
  unfold main_loop
  rw [if_neg h]

theorem main_loop_cons {α : Type} (g c L : Int) (f : α) (rest : List α) (st : Counters)
    (h : L ≤ 0 ∨ st.frame_count < L) :
    main_loop g c L (f :: rest) st =
      match loop_body g c f st with
      | (ops, none) => (ops, none)
      | (ops, some st2) =>
        match main_loop g c L rest st2 with
        | (ops2, fin) => (ops ++ ops2, fin) := by
  rw [main_loop, if_pos h]

/-- A completed run of the main loop is the run of the loop without undefined
cases. -/
theorem main_loop_ref {α : Type} (g c L : Int) (dc : List α) :
    ∀ (st : Counters) (ops : List (SinkOp α)) (fin : Counters),
      main_loop g c L dc st = (ops, some fin) →
      ref_loop (pict_of g) c L dc st = (ops, fin) := by
  induction dc with
  | nil =>
    intro st ops fin h
    rw [main_loop_nil] at h
    simp only [Prod.mk.injEq, Option.some.injEq] at h
    rw [ref_loop_nil, h.1, h.2]
  | cons f rest ih =>
    intro st ops fin h
    by_cases hg : L ≤ 0 ∨ st.frame_count < L
    · rw [main_loop_cons g c L f rest st hg] at h
      rcases hb : loop_body g c f st with ⟨bops, _ | st2⟩
      · simp [hb] at h
      · rcases hm : main_loop g c L rest st2 with ⟨ops2, fin2⟩
        simp only [hb, hm, Prod.mk.injEq] at h
        rw [h.2] at hm
        have hr := ih st2 ops2 fin hm
        rcases loop_body_some g c f st st2 bops hb with ⟨hc, _, hbo, hst⟩ | ⟨hc, hbo, hst⟩
        · rw [ref_loop_rotate (pict_of g) c L f rest st hg hc, ← hst, hr, ← h.1, hbo]
          simp
        · rw [ref_loop_append (pict_of g) c L f rest st hg hc, ← hst, hr, ← h.1, hbo]
          simp
    · rw [main_loop_stop g c L _ st hg] at h
      simp only [Prod.mk.injEq, Option.some.injEq] at h
      rw [ref_loop_stop (pict_of g) c L _ st hg, h.1, h.2]

theorem ref_loop_mono {α : Type} (pict : Int → PictType) (c L : Int) (dc : List α) :
    ∀ st : Counters, st.chunk_count ≤ (ref_loop pict c L dc st).2.chunk_count := by
  induction dc with
  | nil => intro st; simp [ref_loop_nil]
  | cons f rest ih =>
    intro st
    by_cases hg : L ≤ 0 ∨ st.frame_count < L
    · by_cases hc : st.out_frame_num = c
      · rw [ref_loop_rotate pict c L f rest st hg hc]
        have := ih { frame_count := st.frame_count + 1, out_frame_num := 1,
                     chunk_count := st.chunk_count + 1 }
        simp only at this ⊢
        omega
      · rw [ref_loop_append pict c L f rest st hg hc]
        exact ih _
    · rw [ref_loop_stop pict c L _ st hg]

/-- With a positive `gop_size`, the main loop completes whenever `chunk_count`
stays an `int` in the loop without undefined cases, and then the two agree. -/
theorem main_loop_total {α : Type} (g c L : Int) (hg : 0 < g) (dc : List α) :
    ∀ st : Counters, (ref_loop (pict_of g) c L dc st).2.chunk_count ≤ int_max →
      main_loop g c L dc st
        = ((ref_loop (pict_of g) c L dc st).1, some (ref_loop (pict_of g) c L dc st).2) := by
  induction dc with
  | nil => intro st _; rw [main_loop_nil, ref_loop_nil]
  | cons f rest ih =>
    intro st hle
    by_cases hgd : L ≤ 0 ∨ st.frame_count < L
    · rw [main_loop_cons g c L f rest st hgd]
      by_cases hc : st.out_frame_num = c
      · rw [ref_loop_rotate (pict_of g) c L f rest st hgd hc] at hle ⊢
        have hmono := ref_loop_mono (pict_of g) c L rest
          { frame_count := st.frame_count + 1, out_frame_num := 1,
            chunk_count := st.chunk_count + 1 }
        simp only at hle hmono
        have hm : st.chunk_count ≠ int_max := by omega
        rw [loop_body_rotate g c hg f st hc hm]
        simp only
        rw [ih _ hle]
        simp
      · rw [ref_loop_append (pict_of g) c L f rest st hgd hc] at hle ⊢
        rw [loop_body_append g c hg f st hc]
        simp only at hle ⊢
        rw [ih _ hle]
        simp
    · rw [main_loop_stop g c L _ st hgd, ref_loop_stop (pict_of g) c L _ st hgd]

/-- Past the chunk size the loop never rotates: the counter of chunks does not
move and everything goes to the open segment. -/
theorem ref_loop_no_rotation {α : Type} (pict : Int → PictType) (c : Int) (dc : List α) :
    ∀ (cur : List (WrittenFrame α)) (st : Counters), c < st.out_frame_num →
      (ref_loop pict c 0 dc st).2.chunk_count = st.chunk_count ∧
      (loop_segs pict c dc cur st).length = 1 := by
  induction dc with
  | nil => intro cur st _; simp [ref_loop_nil, loop_segs_nil]
  | cons f rest ih =>
    intro cur st h
    have hc : st.out_frame_num ≠ c := by omega
    rw [ref_loop_append pict c 0 f rest st (Or.inl (le_refl 0)) hc,
      loop_segs_append pict c f rest cur st hc]
    exact ih _ _ (by simp only; omega)

theorem ref_initial_cc_nonpos {α : Type} (pict : Int → PictType) (c : Int) (hc : c ≤ 0)
    (dc : List α) : (ref_loop pict c 0 dc initial_counters).2.chunk_count ≤ 2 := by
  cases dc with
  | nil => simp [ref_loop_nil, initial_counters]
  | cons f rest =>
    by_cases h0 : initial_counters.out_frame_num = c
    · rw [ref_loop_rotate pict c 0 f rest _ (Or.inl (le_refl 0)) h0]
      rw [(ref_loop_no_rotation pict c rest [] _ (by simp only; omega)).1]
      simp [initial_counters]
    · rw [ref_loop_append pict c 0 f rest _ (Or.inl (le_refl 0)) h0]
      have h1 : c < 0 := by
        simp only [initial_counters] at h0
        omega
      rw [(ref_loop_no_rotation pict c rest [] _ (by simp only [initial_counters]; omega)).1]
      simp [initial_counters]

theorem ref_initial_cc_pos {α : Type} (pict : Int → PictType) (c : Int) (hc : 0 < c)
    (dc : List α) (hfit : (dc.length : Int) ≤ int_max * c) :
    (ref_loop pict c 0 dc initial_counters).2.chunk_count ≤ int_max := by
  obtain ⟨_, h2, _⟩ := ref_loop_counters pict c dc initial_counters
  obtain ⟨_, _, _, h4, h5⟩ := loop_segs_sizes pict c hc dc [] initial_counters
    (by simp [initial_counters]) (by simp [initial_counters]; omega)
  simp only [initial_counters] at h2
  cases dc with
  | nil => simp [ref_loop_nil, initial_counters, int_max]
  | cons f rest =>
    have h1 := h4 (by simp)
    by_contra hgt
    have hge : int_max + 1 ≤ (ref_loop pict c 0 (f :: rest) initial_counters).2.chunk_count := by
      omega
    have hmul : (int_max + 1) * c
        ≤ (ref_loop pict c 0 (f :: rest) initial_counters).2.chunk_count * c :=
      Int.mul_le_mul_of_nonneg_right hge (le_of_lt hc)
    have hexp : (int_max + 1) * c = int_max * c + c := by ring
    simp only [initial_counters] at h1 hmul
    omega

/-! ## The runs of `split_video` -/

theorem skip_loop_eq {α : Type} (dc : List α) :
    ∀ skip : Int, skip_loop skip dc
      = if skip.toNat ≤ dc.length then some (dc.drop skip.toNat) else none := by
  induction dc with
  | nil =>
    intro skip
    unfold skip_loop
    by_cases h : skip > 0
    · have : ¬ skip.toNat ≤ 0 := by omega
      simp [h, this]
    · have : skip.toNat = 0 := by omega
      simp [h, this]
  | cons f rest ih =>
    intro skip
    unfold skip_loop
    by_cases h : skip > 0
    · have h2 : skip.toNat = (skip - 1).toNat + 1 := by omega
      simp only [h, if_true, ih, h2, List.length_cons, List.drop_succ_cons,
        Nat.add_le_add_iff_right]
    · have : skip.toNat = 0 := by omega
      simp [h, this]

theorem run_frames_eq {α : Type} (skip length : Int) (dc : List α) :
    run_frames skip length dc =
      if 0 < length then (dc.drop skip.toNat).take length.toNat else dc.drop skip.toNat := by
  simp [run_frames, processed]

theorem ref_loop_run_frames {α : Type} (pict : Int → PictType) (c skip L : Int)
    (dc : List α) :
    ref_loop pict c L (dc.drop skip.toNat) initial_counters
      = ref_loop pict c 0 (run_frames skip L dc) initial_counters := by
  rw [ref_loop_eq_unbounded]
  rfl

/-- With a positive `gop_size` and a counter of chunks that stays an `int`,
`split_video` returns, with the operations and counters of the loop without
undefined cases. -/
theorem split_video_returned {α : Type} (g c skip L : Int) (dc : List α)
    (hs : skip.toNat ≤ dc.length) (hg : 0 < g)
    (hcc : (ref_loop (pict_of g) c 0 (run_frames skip L dc) initial_counters).2.chunk_count
      ≤ int_max) :
    split_video g c skip L dc =
      SplitOutcome.returned
        (SinkOp.init_encoder 0 ::
          ((ref_loop (pict_of g) c 0 (run_frames skip L dc) initial_counters).1
            ++ close_encoder))
        (ref_loop (pict_of g) c 0 (run_frames skip L dc) initial_counters).2 := by
  unfold split_video
  rw [skip_loop_eq, if_pos hs]
  simp only
  have h := main_loop_total g c L hg (dc.drop skip.toNat) initial_counters
    (by rw [ref_loop_run_frames]; exact hcc)
  rw [ref_loop_run_frames] at h
  have h2 : main_loop g c L (dc.drop skip.toNat)
      { frame_count := 0, out_frame_num := 0, chunk_count := 1 }
      = ((ref_loop (pict_of g) c 0 (run_frames skip L dc) initial_counters).1,
          some (ref_loop (pict_of g) c 0 (run_frames skip L dc) initial_counters).2) := h
  rw [h2]

theorem split_video_exited {α : Type} (g c skip L : Int) (dc : List α)
    (h : dc.length < skip.toNat) :
    split_video g c skip L dc = SplitOutcome.exited 0 := by
  unfold split_video
  rw [skip_loop_eq, if_neg (by omega)]

theorem split_video_inv {α : Type} (g c skip L : Int) (dc : List α) (ops : List (SinkOp α))
    (st : Counters) (h : split_video g c skip L dc = SplitOutcome.returned ops st) :
    skip.toNat ≤ dc.length ∧
    ∃ lops : List (SinkOp α),
      main_loop g c L (dc.drop skip.toNat) initial_counters = (lops, some st) ∧
      ref_loop (pict_of g) c 0 (run_frames skip L dc) initial_counters = (lops, st) ∧
      ops = SinkOp.init_encoder 0 :: (lops ++ close_encoder) ∧
      segments ops = loop_segs (pict_of g) c (run_frames skip L dc) [] initial_counters := by
  by_cases hs : skip.toNat ≤ dc.length
  · refine ⟨hs, ?_⟩
    unfold split_video at h
    rw [skip_loop_eq, if_pos hs] at h
    simp only at h
    rcases hm : main_loop g c L (dc.drop skip.toNat)
        { frame_count := 0, out_frame_num := 0, chunk_count := 1 } with ⟨lops, _ | fin⟩
    · simp [hm] at h
    · simp only [hm, SplitOutcome.returned.injEq] at h
      have hm2 : main_loop g c L (dc.drop skip.toNat) initial_counters = (lops, some st) := by
        rw [← h.2]; exact hm
      have hr := main_loop_ref g c L _ _ _ _ hm2
      rw [ref_loop_run_frames] at hr
      refine ⟨lops, hm2, hr, h.1.symm, ?_⟩
      rw [← h.1]
      simp only [segments, seg_aux, loop_segs, segs_from, hr, List.nil_append]
  · rw [split_video_exited g c skip L dc (by omega)] at h
    exact absurd h (by simp)

/-- With `chunk_size = 0` and a positive `gop_size`, a run on a non-empty source
returns with an empty first segment and a second segment that holds every
frame. -/
theorem chunk_zero_segments {α : Type} (g : Int) (hg : 0 < g) (dc : List α) (hne : dc ≠ []) :
    ∃ (ops : List (SinkOp α)) (st : Counters) (seg : List (WrittenFrame α)),
      split_video g 0 0 (-1) dc = SplitOutcome.returned ops st ∧
      segments ops = [[], seg] ∧ seg.length = dc.length ∧ frame_law (pict_of g) seg := by
  have hcc := ref_initial_cc_nonpos (pict_of g) 0 (le_refl 0) (run_frames 0 (-1) dc)
  have hret := split_video_returned g 0 0 (-1) dc (by simp) hg (by simp only [int_max]; omega)
  obtain ⟨_, lops, _, _, _, hseg⟩ := split_video_inv g 0 0 (-1) dc _ _ hret
  have hfr : run_frames 0 (-1) dc = dc := by simp [run_frames_eq]
  rw [hfr] at hseg
  cases dc with
  | nil => exact absurd rfl hne
  | cons f rest =>
    rw [loop_segs_rotate (pict_of g) 0 f rest [] initial_counters (by simp [initial_counters])]
      at hseg
    have hone := (ref_loop_no_rotation (pict_of g) 0 rest
      [{ frame := f, pict_type := pict_of g 0, pts := 0 }]
      { frame_count := initial_counters.frame_count + 1, out_frame_num := 1,
        chunk_count := initial_counters.chunk_count + 1 } (by simp)).2
    obtain ⟨seg, hsegs⟩ := List.length_eq_one.mp hone
    have hlaw := loop_segs_law (pict_of g) 0 rest
      [{ frame := f, pict_type := pict_of g 0, pts := 0 }]
      { frame_count := initial_counters.frame_count + 1, out_frame_num := 1,
        chunk_count := initial_counters.chunk_count + 1 }
      (by
        have := frame_law_append (pict_of g) ([] : List (WrittenFrame α)) 0 f
          (by intro k w hk; simp at hk) (by simp)
        simpa using this)
      (by simp) seg (by rw [hsegs]; simp)
    have hfl := loop_segs_frames (pict_of g) 0 rest
      [{ frame := f, pict_type := pict_of g 0, pts := 0 }]
      { frame_count := initial_counters.frame_count + 1, out_frame_num := 1,
        chunk_count := initial_counters.chunk_count + 1 }
    rw [hsegs] at hfl hseg
    have hlen := congrArg List.length hfl
    simp only [List.flatten_cons, List.flatten_nil, List.append_nil, List.length_map,
      List.map_cons, List.map_nil, List.singleton_append, List.length_cons] at hlen
    exact ⟨_, _, seg, hret, hseg, by rw [hlen, List.length_cons], hlaw⟩

theorem long_source_length : long_source.length = 2 ^ 31 + 2 :=
  List.length_replicate _ _

theorem loop_body_balanced {α : Type} (g c : Int) (f : α) (st st2 : Counters)
    (bops : List (SinkOp α)) (hb : loop_body g c f st = (bops, some st2))
    (h : counters_balanced c st) : counters_balanced c st2 := by
  unfold counters_balanced at h ⊢
  rcases loop_body_some g c f st st2 bops hb with ⟨hc, _, _, hst⟩ | ⟨_, _, hst⟩
  · rw [hst]
    simp only
    rw [h, hc]; ring
  · rw [hst]
    simp only
    rw [h]; ring

theorem loop_states_balanced {α : Type} (g c L : Int) (dc : List α) :
    ∀ st : Counters, counters_balanced c st →
      ∀ s ∈ loop_states g c L dc st, counters_balanced c s := by
  induction dc with
  | nil =>
    intro st _ s hs
    unfold loop_states at hs
    split at hs <;> simp at hs
  | cons f rest ih =>
    intro st hst s hs
    unfold loop_states at hs
    split at hs
    · rcases hb : loop_body g c f st with ⟨bops, _ | st2⟩
      · simp [hb] at hs
      · simp only [hb] at hs
        have hbal := loop_body_balanced g c f st st2 bops hb hst
        rcases List.mem_cons.mp hs with e | e
        · rw [e]; exact hbal
        · exact ih _ hbal s e
    · simp at hs

theorem loop_states_last {α : Type} (g c L : Int) (dc : List α) :
    ∀ (st : Counters) (ops : List (SinkOp α)) (fin : Counters),
      main_loop g c L dc st = (ops, some fin) →
      (st :: loop_states g c L dc st).getLast? = some fin := by
  induction dc with
  | nil =>
    intro st ops fin h
    rw [main_loop_nil] at h
    simp only [Prod.mk.injEq, Option.some.injEq] at h
    unfold loop_states
    split <;> simp [h.2]
  | cons f rest ih =>
    intro st ops fin h
    by_cases hg : L ≤ 0 ∨ st.frame_count < L
    · rw [main_loop_cons g c L f rest st hg] at h
      unfold loop_states
      rw [if_pos hg]
      rcases hb : loop_body g c f st with ⟨bops, _ | st2⟩
      · simp [hb] at h
      · rcases hm : main_loop g c L rest st2 with ⟨ops2, fin2⟩
        simp only [hb, hm, Prod.mk.injEq] at h
        rw [h.2] at hm
        simp only [hb]
        rw [getLast?_cons_ne_nil _ _ (by simp)]
        exact ih st2 ops2 fin hm
    · rw [main_loop_stop g c L _ st hg] at h
      simp only [Prod.mk.injEq, Option.some.injEq] at h
      unfold loop_states
      rw [if_neg hg]
      simp [h.2]

/-- A list of `m * g` picture types whose entry at position `k` is `I` exactly
when `g` divides `k` is `m` groups of one `I` followed by `g - 1` `P`. -/
theorem pict_pattern (g : Nat) (hg : 0 < g) :
    ∀ (m : Nat) (l : List PictType), l.length = m * g →
      (∀ (k : Nat) (p : PictType), l[k]? = some p →
        p = if k % g = 0 then PictType.I else PictType.P) →
      l = (List.replicate m (PictType.I :: List.replicate (g - 1) PictType.P)).flatten := by
  intro m
  induction m with
  | zero =>
    intro l hl _
    have : l = [] := List.length_eq_zero.mp (by omega)
    simp [this]
  | succ m ih =>
    intro l hl hlaw
    have hlen : g ≤ l.length := by
      rw [hl]; exact Nat.le_mul_of_pos_left g (Nat.succ_pos m)
    have htake : l.take g = PictType.I :: List.replicate (g - 1) PictType.P := by
      apply List.ext_getElem?
      intro n
      by_cases hn : n < g
      · rw [List.getElem?_take_of_lt hn]
        have hnl : n < l.length := by omega
        have hsome : l[n]? = some l[n] := List.getElem?_eq_getElem hnl
        rw [hsome, hlaw n _ hsome, Nat.mod_eq_of_lt hn]
        cases n with
        | zero => simp
        | succ n1 =>
          have : n1 < g - 1 := by omega
          simp [this]
      · rw [List.getElem?_take_eq_none (by omega)]
        symm
        apply List.getElem?_eq_none
        simp
        omega
    have hdrop : l.drop g
        = (List.replicate m (PictType.I :: List.replicate (g - 1) PictType.P)).flatten := by
      apply ih
      · rw [List.length_drop, hl, Nat.succ_mul]; omega
      · intro k p hk
        rw [List.getElem?_drop] at hk
        have := hlaw (g + k) p hk
        rwa [Nat.add_mod_left] at this
    rw [List.replicate_succ, List.flatten_cons, ← hdrop, ← htake, List.take_append_drop]

/-- When every segment but the last holds `c` frames and the picture type at
position `k` of a segment is `Q k`, with `Q` of period `c`, the picture type of
a frame follows from its position in the whole run in the same way. -/
theorem flatten_pict_type {α : Type} (Q : Nat → PictType) (c : Nat)
    (hper : ∀ k : Nat, Q (k + c) = Q k) :
    ∀ segs : List (List (WrittenFrame α)),
      (∀ seg ∈ segs.dropLast, seg.length = c) →
      (∀ seg ∈ segs, ∀ (k : Nat) (w : WrittenFrame α), seg[k]? = some w → w.pict_type = Q k) →
      ∀ (i : Nat) (w : WrittenFrame α), segs.flatten[i]? = some w → w.pict_type = Q i := by
  intro segs
  induction segs with
  | nil => intro _ _ i w hw; simp at hw
  | cons s rest ih =>
    intro hsz hlaw i w hw
    rw [List.flatten_cons] at hw
    by_cases hlt : i < s.length
    · rw [List.getElem?_append_left hlt] at hw
      exact hlaw s (List.mem_cons_self _ _) i w hw
    · have hne : rest ≠ [] := by
        intro h
        rw [h] at hw
        simp at hw
        rw [List.getElem?_eq_none (by omega)] at hw
        exact absurd hw (by simp)
      rw [List.dropLast_cons_of_ne_nil hne] at hsz
      have hs : s.length = c := hsz s (List.mem_cons_self _ _)
      rw [List.getElem?_append_right (by omega)] at hw
      have h1 := ih (fun seg h => hsz seg (List.mem_cons_of_mem _ h))
        (fun seg h => hlaw seg (List.mem_cons_of_mem _ h)) (i - s.length) w hw
      have h2 := hper (i - s.length)
      have h3 : i - s.length + c = i := by omega
      rw [h3] at h2
      rw [h1, h2]

/-! ## Runs that stop on the overflow of `chunk_count` -/

/-- Scenario A: ten frames, `gop_size = 2`, `chunk_size = 4`, no skip, unbounded:
three segments of 4, 4 and 2 frames, picture types `I P I P`, pts from 0 in each. -/
theorem scenario_a_segments :
    (segments (split_video 2 4 0 (-1) [0, 1, 2, 3, 4, 5, 6, 7, 8, 9]).ops).map
        (fun seg => seg.map (fun w => (w.frame, w.pict_type, w.pts)))
      = [[(0, PictType.I, 0), (1, PictType.P, 1), (2, PictType.I, 2), (3, PictType.P, 3)],
         [(4, PictType.I, 0), (5, PictType.P, 1), (6, PictType.I, 2), (7, PictType.P, 3)],
         [(8, PictType.I, 0), (9, PictType.P, 1)]] := by
  have e : run_frames 0 (-1) [0, 1, 2, 3, 4, 5, 6, 7, 8, 9] = [0, 1, 2, 3, 4, 5, 6, 7, 8, 9] := by
    simp [run_frames, processed]
  have hcc := ref_initial_cc_pos (pict_of 2) 4 (by decide)
    (run_frames 0 (-1) [0, 1, 2, 3, 4, 5, 6, 7, 8, 9]) (by rw [e]; decide)
  have hret := split_video_returned 2 4 0 (-1) [0, 1, 2, 3, 4, 5, 6, 7, 8, 9] (by decide)
    (by decide) hcc
  obtain ⟨_, lops, _, _, _, hseg⟩ := split_video_inv _ _ _ _ _ _ _ hret
  rw [hret]
  simp only [SplitOutcome.ops]
  rw [hseg, e]
  simp [loop_segs_rotate, loop_segs_append, loop_segs_nil, initial_counters]
  decide

/-- Scenario B: seven frames, `gop_size = 3`, `chunk_size = 6`, `skip = 2`: one
segment with the five remaining frames, picture types `I P P I P`. -/
theorem scenario_b_segments :
    (segments (split_video 3 6 2 (-1) [0, 1, 2, 3, 4, 5, 6]).ops).map
        (fun seg => seg.map (fun w => (w.frame, w.pict_type, w.pts)))
      = [[(2, PictType.I, 0), (3, PictType.P, 1), (4, PictType.P, 2), (5, PictType.I, 3),
          (6, PictType.P, 4)]] := by
  have e : run_frames 2 (-1) [0, 1, 2, 3, 4, 5, 6] = [2, 3, 4, 5, 6] := by
    simp [run_frames, processed]
  have hcc := ref_initial_cc_pos (pict_of 3) 6 (by decide)
    (run_frames 2 (-1) [0, 1, 2, 3, 4, 5, 6]) (by rw [e]; decide)
  have hret := split_video_returned 3 6 2 (-1) [0, 1, 2, 3, 4, 5, 6] (by decide)
    (by decide) hcc
  obtain ⟨_, lops, _, _, _, hseg⟩ := split_video_inv _ _ _ _ _ _ _ hret
  rw [hret]
  simp only [SplitOutcome.ops]
  rw [hseg, e]
  simp [loop_segs_rotate, loop_segs_append, loop_segs_nil, initial_counters]
  decide

/-! ## The claims -/

/-- Claim C3 fails past `INT_MAX`: with `gop_size = 3` and `chunk_size = 0` (a
configuration `main` accepts) the frame written at position `2 ^ 31 + 1` of its
segment is a `P` frame, because `out_frame_num` is converted to the `int`
parameter of `set_pict_type`, while `(2 ^ 31 + 1) mod 3 = 0`. -/
theorem C3_counterexample :
    ∃ ops st seg w, split_video 3 0 0 (-1) long_source = SplitOutcome.returned ops st ∧
      seg ∈ segments ops ∧ seg[2147483649]? = some w ∧
      w.pict_type = PictType.P ∧ ((2147483649 : Nat) : Int) % 3 = 0 := by
  have hne : long_source ≠ [] := by
    intro h
    have := long_source_length
    rw [h] at this
    exact absurd this (by decide)
  obtain ⟨ops, st, seg, hret, hseg, hlen, hlaw⟩ :=
    chunk_zero_segments 3 (by decide) long_source hne
  have hidx : 2147483649 < seg.length := by
    rw [hlen, long_source_length]; decide
  have hw : seg[2147483649]? = some seg[2147483649] := List.getElem?_eq_getElem hidx
  refine ⟨ops, st, seg, _, hret, by rw [hseg]; simp, hw, ?_, by decide⟩
  rw [(hlaw 2147483649 _ hw).2]
  decide

/-- Claim C3, amended: in every run of `split_video` with `gop_size > 0`, the
frame written at position `k` of a segment (where `out_frame_num`, recorded as
its pts, is `k`), for `k` below `2 ^ 31`, has picture type `I` if and only if
`k mod gop_size = 0`, and `P` otherwise; the first frame of every segment is an
`I` frame; and when `chunk_size` is a positive `int` every position is below
`2 ^ 31`, so the law holds for every frame. -/
theorem C3_picture_type {α : Type} (gop_size chunk_size skip length : Int) (dc : List α)
    (ops : List (SinkOp α)) (st : Counters) (hgop : 0 < gop_size)
    (hrun : split_video gop_size chunk_size skip length dc = SplitOutcome.returned ops st) :
    ∀ seg ∈ segments ops,
      (∀ (k : Nat) (w : WrittenFrame α), seg[k]? = some w → (k : Int) < 2 ^ 31 →
        w.pts = (k : Int) ∧
        (w.pict_type = PictType.I ↔ (k : Int) % gop_size = 0) ∧
        (w.pict_type = PictType.P ↔ (k : Int) % gop_size ≠ 0)) ∧
      (∀ w : WrittenFrame α, seg.head? = some w → w.pict_type = PictType.I) ∧
      (0 < chunk_size → chunk_size < 2 ^ 31 →
        ∀ (k : Nat) (w : WrittenFrame α), seg[k]? = some w →
          (w.pict_type = PictType.I ↔ (k : Int) % gop_size = 0) ∧
          (w.pict_type = PictType.P ↔ (k : Int) % gop_size ≠ 0)) := by
  obtain ⟨_, lops, _, _, _, hseg⟩ :=
    split_video_inv gop_size chunk_size skip length dc ops st hrun
  intro seg hmem
  rw [hseg] at hmem
  have hlaw := loop_segs_law (pict_of gop_size) chunk_size (run_frames skip length dc) []
    initial_counters (by intro k w hk; simp at hk) (by simp [initial_counters]) seg hmem
  have hk : ∀ (k : Nat) (w : WrittenFrame α), seg[k]? = some w → (k : Int) < 2 ^ 31 →
      w.pts = (k : Int) ∧
      (w.pict_type = PictType.I ↔ (k : Int) % gop_size = 0) ∧
      (w.pict_type = PictType.P ↔ (k : Int) % gop_size ≠ 0) := by
    intro k w hw hlt
    have h2 := (hlaw k w hw).2
    rw [pict_of_nat gop_size hgop k hlt] at h2
    refine ⟨(hlaw k w hw).1, ?_⟩
    by_cases h0 : (k : Int) % gop_size = 0
    · simp [h2, h0]
    · simp [h2, h0]
  refine ⟨hk, ?_, ?_⟩
  · intro w hw
    have h0 : seg[0]? = some w := by
      cases seg with
      | nil => simp at hw
      | cons a t => simpa using hw
    exact ((hk 0 w h0 (by decide)).2.1).mpr (by simp)
  · intro hchunk hint k w hw
    obtain ⟨_, hs2, _⟩ :=
      loop_segs_sizes (pict_of gop_size) chunk_size hchunk (run_frames skip length dc) []
        initial_counters (by simp [initial_counters]) (by simp [initial_counters]; omega)
    have hsz := hs2 seg hmem
    have hklt : k < seg.length := by
      by_contra hge
      rw [List.getElem?_eq_none (by omega)] at hw
      exact absurd hw (by simp)
    exact (hk k w hw (by omega)).2

/-- Claim C3, amended, on the sample run (three frames, `gop_size = 2`,
`chunk_size = 2`). -/
theorem C3_picture_type_witness :
    (0 : Int) < 2 ∧
    split_video 2 2 0 (-1) [(), (), ()] = SplitOutcome.returned sample_ops sample_counters ∧
    ∀ seg ∈ segments sample_ops,
      (∀ (k : Nat) (w : WrittenFrame Unit), seg[k]? = some w → (k : Int) < 2 ^ 31 →
        w.pts = (k : Int) ∧
        (w.pict_type = PictType.I ↔ (k : Int) % 2 = 0) ∧
        (w.pict_type = PictType.P ↔ (k : Int) % 2 ≠ 0)) ∧
      (∀ w : WrittenFrame Unit, seg.head? = some w → w.pict_type = PictType.I) ∧
      ((0 : Int) < 2 → (2 : Int) < 2 ^ 31 →
        ∀ (k : Nat) (w : WrittenFrame Unit), seg[k]? = some w →
          (w.pict_type = PictType.I ↔ (k : Int) % 2 = 0) ∧
          (w.pict_type = PictType.P ↔ (k : Int) % 2 ≠ 0)) :=
  ⟨by decide, by decide,
    C3_picture_type 2 2 0 (-1) [(), (), ()] sample_ops sample_counters (by decide)
      (by decide)⟩

/-- Claim C4: in every run of `split_video` with `chunk_size > 0`, the frame
written at position `k` of a segment carries pts `k`, so the timestamps of a
segment are `0, 1, 2, ...` from its first frame, and every pts lies in
`[0, chunk_size)`. -/
theorem C4_timestamps {α : Type} (gop_size chunk_size skip length : Int) (dc : List α)
    (ops : List (SinkOp α)) (st : Counters) (hchunk : 0 < chunk_size)
    (hrun : split_video gop_size chunk_size skip length dc = SplitOutcome.returned ops st) :
    ∀ seg ∈ segments ops, ∀ (k : Nat) (w : WrittenFrame α), seg[k]? = some w →
      w.pts = (k : Int) ∧ 0 ≤ w.pts ∧ w.pts < chunk_size := by
  obtain ⟨_, lops, _, _, _, hseg⟩ :=
    split_video_inv gop_size chunk_size skip length dc ops st hrun
  intro seg hmem k w hw
  rw [hseg] at hmem
  have hlaw := loop_segs_law (pict_of gop_size) chunk_size (run_frames skip length dc) []
    initial_counters (by intro k w hk; simp at hk) (by simp [initial_counters]) seg hmem
  obtain ⟨_, hs2, _⟩ :=
    loop_segs_sizes (pict_of gop_size) chunk_size hchunk (run_frames skip length dc) []
      initial_counters (by simp [initial_counters]) (by simp [initial_counters]; omega)
  have hsz := hs2 seg hmem
  have hklt : k < seg.length := by
    by_contra hge
    rw [List.getElem?_eq_none (by omega)] at hw
    exact absurd hw (by simp)
  have h1 := (hlaw k w hw).1
  refine ⟨h1, by omega, by omega⟩

/-- Claim C4 on the sample run (three frames, `gop_size = 2`, `chunk_size = 2`). -/
theorem C4_timestamps_witness :
    (0 : Int) < 2 ∧
    split_video 2 2 0 (-1) [(), (), ()] = SplitOutcome.returned sample_ops sample_counters ∧
    ∀ seg ∈ segments sample_ops, ∀ (k : Nat) (w : WrittenFrame Unit), seg[k]? = some w →
      w.pts = (k : Int) ∧ 0 ≤ w.pts ∧ w.pts < 2 :=
  ⟨by decide, by decide,
    C4_timestamps 2 2 0 (-1) [(), (), ()] sample_ops sample_counters (by decide)
      (by decide)⟩

/-- Claim C7 fails on its exit status: with `skip = 1` and an empty source the
process leaves through `exit(0)`, not with status 1. -/
theorem C7_counterexample :
    split_video 30 120 1 (-1) ([] : List Unit) = SplitOutcome.exited 0 ∧
      (main [GetoptReturn.s 1] 2 ([] : List Unit)).ending = ProcessEnd.status 0 ∧
      (main [GetoptReturn.s 1] 2 ([] : List Unit)).ending ≠ ProcessEnd.status 1 := by
  refine ⟨by decide, by decide, by decide⟩

/-- Claim C7, amended: for `skip > 0` and a source with fewer than `skip`
frames, `split_video` ends the process through `exit(0)` inside the skip loop,
and no output segment is opened (no operation on the output at all). -/
theorem C7_skip_exhausted {α : Type} (gop_size chunk_size skip length : Int) (dc : List α)
    (hskip : 0 < skip) (hshort : (dc.length : Int) < skip) :
    split_video gop_size chunk_size skip length dc = SplitOutcome.exited 0 ∧
      (split_video gop_size chunk_size skip length dc).ops = [] := by
  have h := split_video_exited gop_size chunk_size skip length dc (by omega)
  rw [h]
  exact ⟨rfl, rfl⟩

/-- Claim C7, amended, on one frame with `skip = 3`. -/
theorem C7_skip_exhausted_witness :
    (0 : Int) < 3 ∧ (([()].length : Int) < 3) ∧
    split_video 30 120 3 (-1) [()] = SplitOutcome.exited 0 ∧
    (split_video 30 120 3 (-1) [()]).ops = [] :=
  ⟨by decide, by decide, C7_skip_exhausted 30 120 3 (-1) [()] (by decide) (by decide)⟩

/-- Claim C8: when the option loop ends with a non-zero `gop_size` and a
`chunk_size` with `chunk_size mod gop_size ≠ 0`, `main` returns 1 without
calling `split_video`, whatever the other options, the positional arguments and
the input are. -/
theorem C8_validation_gate {α : Type} (opts : List GetoptReturn) (positional : Int)
    (input : List α) (v : Options)
    (hparse : parse_options opts default_options = ParseEnd.parsed v)
    (hgop : v.gop_size ≠ 0) (hrem : v.chunk_size % v.gop_size ≠ 0) :
    main opts positional input = { ending := ProcessEnd.status 1, call := none } := by
  have hndvd : ¬ v.gop_size ∣ v.chunk_size := fun hd => hrem (Int.emod_eq_zero_of_dvd hd)
  have htmod : Int.tmod v.chunk_size v.gop_size ≠ 0 :=
    fun h0 => hndvd (Int.dvd_of_tmod_eq_zero h0)
  have hrem2 : c_rem v.chunk_size v.gop_size = some (Int.tmod v.chunk_size v.gop_size) := by
    unfold c_rem
    rw [if_neg]
    rintro (h | ⟨_, h⟩)
    · exact hgop h
    · exact hndvd (by rw [h]; exact ⟨-v.chunk_size, by ring⟩)
  unfold main
  simp only [hparse, hrem2]
  rw [if_pos htmod]

/-- Claim C8 on `--gop-size 5 --chunk-size 7` (scenario C). -/
theorem C8_validation_gate_witness :
    parse_options [GetoptReturn.g 5, GetoptReturn.c 7] default_options
      = ParseEnd.parsed { gop_size := 5, chunk_size := 7, skip := 0, length := -1 } ∧
    (5 : Int) ≠ 0 ∧ (7 : Int) % 5 ≠ 0 ∧
    main [GetoptReturn.g 5, GetoptReturn.c 7] 2 [()]
      = { ending := ProcessEnd.status 1, call := none } :=
  ⟨by decide, by decide, by decide,
    C8_validation_gate [GetoptReturn.g 5, GetoptReturn.c 7] 2 [()]
      { gop_size := 5, chunk_size := 7, skip := 0, length := -1 }
      (by decide) (by decide) (by decide)⟩

/-- Claim C9 fails: `--chunk-size 0` passes the validation and reaches
`split_video` with `chunk_size = 0`, which is not positive; and with
`--gop-size 0` the validation itself divides by zero. -/
theorem C9_counterexample :
    (∃ call, (main [GetoptReturn.c 0] 2 ([] : List Unit)).call = some call ∧
      call.gop_size = 30 ∧ call.chunk_size = 0 ∧ ¬ (0 < call.chunk_size)) ∧
    (main [GetoptReturn.g 0] 2 ([] : List Unit)).ending = ProcessEnd.undefined := by
  refine ⟨⟨_, rfl, by decide, by decide, by decide⟩, by decide⟩

/-- Claim C9, amended: every configuration that reaches `split_video` has
`gop_size ≠ 0` and `chunk_size % gop_size = 0` (nothing makes either value
positive); and when the option loop ends with `gop_size = 0`, the check divides
by zero and `split_video` is not reached. -/
theorem C9_validated_configuration {α : Type} (opts : List GetoptReturn) (positional : Int)
    (input : List α) :
    (∀ call, (main opts positional input).call = some call →
      call.gop_size ≠ 0 ∧ call.chunk_size % call.gop_size = 0) ∧
    (∀ v, parse_options opts default_options = ParseEnd.parsed v → v.gop_size = 0 →
      main opts positional input = { ending := ProcessEnd.undefined, call := none }) := by
  constructor
  · intro call hcall
    unfold main at hcall
    cases hp : parse_options opts default_options with
    | exited code => simp [hp] at hcall
    | aborted => simp [hp] at hcall
    | parsed v =>
      simp only [hp] at hcall
      cases hr : c_rem v.chunk_size v.gop_size with
      | none => simp [hr] at hcall
      | some r =>
        simp only [hr] at hcall
        by_cases h0 : r ≠ 0
        · simp [h0] at hcall
        · by_cases hpos : positional ≠ 2
          · simp [h0, hpos] at hcall
          · simp only [h0, hpos, if_false, Option.some.injEq] at hcall
            subst hcall
            simp only
            unfold c_rem at hr
            split at hr
            · exact absurd hr (by simp)
            · rename_i hu
              simp only [Option.some.injEq] at hr
              have hr0 : r = 0 := by simpa using h0
              rw [hr0] at hr
              exact ⟨fun h => hu (Or.inl h),
                Int.emod_eq_zero_of_dvd (Int.dvd_of_tmod_eq_zero hr)⟩
  · intro v hp hg
    unfold main
    simp [hp, c_rem, hg]

/-- Claim C9, amended, on `--chunk-size 60`. -/
theorem C9_validated_configuration_witness :
    (main [GetoptReturn.c 60] 2 ([] : List Unit)).call
      = some { gop_size := 30, chunk_size := 60, skip := 0, length := -1,
               outcome := split_video 30 60 0 (-1) [] } ∧
    ((30 : Int) ≠ 0 ∧ (60 : Int) % 30 = 0) :=
  ⟨by decide,
    (C9_validated_configuration [GetoptReturn.c 60] 2 ([] : List Unit)).1
      { gop_size := 30, chunk_size := 60, skip := 0, length := -1,
        outcome := split_video 30 60 0 (-1) [] } (by decide)⟩

/-- Claim C10: in every run in which `split_video` returns, the operations on
the output follow the life cycle `(init_encoder write_video_frame*
flush_frames close_output)+` from the idle state back to the idle state: a
segment is only closed right after its flush, a segment is only opened when
none is open, at least one segment is opened, and as many are closed as
opened. -/
theorem C10_sink_lifecycle {α : Type} (gop_size chunk_size skip length : Int) (dc : List α)
    (ops : List (SinkOp α)) (st : Counters)
    (hrun : split_video gop_size chunk_size skip length dc = SplitOutcome.returned ops st) :
    sink_run SinkState.idle ops = some SinkState.idle ∧
      1 ≤ opened ops ∧ closed ops = opened ops := by
  obtain ⟨_, lops, _, hr, hops, _⟩ :=
    split_video_inv gop_size chunk_size skip length dc ops st hrun
  obtain ⟨h1, h2⟩ := ref_loop_sink (pict_of gop_size) chunk_size (run_frames skip length dc)
    initial_counters
  rw [hr] at h1 h2
  simp only at h1 h2
  rw [hops]
  refine ⟨?_, ?_, ?_⟩
  · simp [sink_run, sink_step, sink_run_append, h1, close_encoder]
  · simp [opened]
  · simp [opened, closed, opened_append, closed_append, h2, close_encoder]

/-- Claim C10 on the sample run (three frames, `gop_size = 2`, `chunk_size = 2`). -/
theorem C10_sink_lifecycle_witness :
    split_video 2 2 0 (-1) [(), (), ()] = SplitOutcome.returned sample_ops sample_counters ∧
    sink_run SinkState.idle sample_ops = some SinkState.idle ∧
    1 ≤ opened sample_ops ∧ closed sample_ops = opened sample_ops :=
  ⟨by decide,
    C10_sink_lifecycle 2 2 0 (-1) [(), (), ()] sample_ops sample_counters (by decide)⟩

/-- Claim C11: for `gop_size > 0` and `chunk_size` a positive multiple of
`gop_size` (an `int`, so below `2 ^ 31`), every segment that holds `chunk_size`
frames is made of exactly `chunk_size / gop_size` groups of one `I` frame
followed by `gop_size - 1` `P` frames; and the frame written at position `i` of
the whole run (counted from 0 across the segments) is an `I` frame if and only
if `i mod gop_size = 0`. -/
theorem C11_gop_boundaries {α : Type} (gop_size chunk_size skip length : Int) (dc : List α)
    (ops : List (SinkOp α)) (st : Counters) (hgop : 0 < gop_size) (hchunk : 0 < chunk_size)
    (hint : chunk_size < 2 ^ 31) (hmult : chunk_size % gop_size = 0)
    (hrun : split_video gop_size chunk_size skip length dc = SplitOutcome.returned ops st) :
    (∀ seg ∈ segments ops, (seg.length : Int) = chunk_size →
      seg.map (fun w => w.pict_type)
        = (List.replicate (chunk_size / gop_size).toNat
            (PictType.I :: List.replicate (gop_size - 1).toNat PictType.P)).flatten) ∧
    (∀ (i : Nat) (w : WrittenFrame α), (segments ops).flatten[i]? = some w →
      (w.pict_type = PictType.I ↔ (i : Int) % gop_size = 0)) := by
  obtain ⟨_, lops, _, _, _, hseg⟩ :=
    split_video_inv gop_size chunk_size skip length dc ops st hrun
  rw [hseg]
  have hlaw := loop_segs_law (pict_of gop_size) chunk_size (run_frames skip length dc) []
    initial_counters (by intro k w hk; simp at hk) (by simp [initial_counters])
  obtain ⟨hs1, hs2, _, _, _⟩ :=
    loop_segs_sizes (pict_of gop_size) chunk_size hchunk (run_frames skip length dc) []
      initial_counters (by simp [initial_counters]) (by simp [initial_counters]; omega)
  have hpos : ∀ seg ∈ loop_segs (pict_of gop_size) chunk_size (run_frames skip length dc) []
      initial_counters, ∀ (k : Nat) (w : WrittenFrame α), seg[k]? = some w →
      w.pict_type = if (k : Int) % gop_size = 0 then PictType.I else PictType.P := by
    intro seg hmem k w hw
    have hsz := hs2 seg hmem
    have hklt : k < seg.length := by
      by_contra hge
      rw [List.getElem?_eq_none (by omega)] at hw
      exact absurd hw (by simp)
    rw [(hlaw seg hmem k w hw).2, pict_of_nat gop_size hgop k (by omega)]
  constructor
  · intro seg hmem hfull
    have hq : chunk_size / gop_size * gop_size = chunk_size :=
      Int.ediv_mul_cancel (Int.dvd_of_emod_eq_zero hmult)
    have hqpos : 0 ≤ chunk_size / gop_size := Int.ediv_nonneg (le_of_lt hchunk) (le_of_lt hgop)
    have hg1 : (gop_size - 1).toNat = gop_size.toNat - 1 := by omega
    rw [hg1]
    apply pict_pattern gop_size.toNat (by omega) (chunk_size / gop_size).toNat
    · rw [List.length_map]
      have h1 : (((chunk_size / gop_size).toNat * gop_size.toNat : Nat) : Int) = chunk_size := by
        rw [Nat.cast_mul, Int.toNat_of_nonneg hqpos, Int.toNat_of_nonneg (le_of_lt hgop), hq]
      omega
    · intro k p hk
      rw [List.getElem?_map] at hk
      cases hw : seg[k]? with
      | none => rw [hw] at hk; simp at hk
      | some w =>
        rw [hw] at hk
        simp only [Option.map_some', Option.some.injEq] at hk
        rw [← hk, hpos seg hmem k w hw]
        have hcast : ((k % gop_size.toNat : Nat) : Int) = (k : Int) % gop_size := by
          rw [Int.natCast_mod, Int.toNat_of_nonneg (le_of_lt hgop)]
        by_cases h0 : k % gop_size.toNat = 0
        · have : (k : Int) % gop_size = 0 := by rw [← hcast, h0]; rfl
          simp [h0, this]
        · have : (k : Int) % gop_size ≠ 0 := by
            intro h; apply h0; rw [← hcast] at h; exact_mod_cast h
          simp [h0, this]
  · intro i w hw
    have hper : ∀ k : Nat,
        (if ((k + chunk_size.toNat : Nat) : Int) % gop_size = 0 then PictType.I else PictType.P)
          = if (k : Int) % gop_size = 0 then PictType.I else PictType.P := by
      intro k
      have hc : ((k + chunk_size.toNat : Nat) : Int) = (k : Int) + chunk_size := by omega
      have hm : ((k : Int) + chunk_size) % gop_size = (k : Int) % gop_size := by
        rw [Int.add_emod, hmult, add_zero, Int.emod_emod_of_dvd _ (dvd_refl _)]
      rw [hc, hm]
    have hp := flatten_pict_type
      (fun k : Nat => if (k : Int) % gop_size = 0 then PictType.I else PictType.P)
      chunk_size.toNat hper _ (fun seg h => by have := hs1 seg h; omega) hpos i w hw
    simp only at hp
    rw [hp]
    by_cases h0 : (i : Int) % gop_size = 0
    · simp [h0]
    · simp [h0]

/-- Claim C11 on the sample run (three frames, `gop_size = 2`, `chunk_size = 2`). -/
theorem C11_gop_boundaries_witness :
    (0 : Int) < 2 ∧ (0 : Int) < 2 ∧ (2 : Int) < 2 ^ 31 ∧ (2 : Int) % 2 = 0 ∧
    split_video 2 2 0 (-1) [(), (), ()] = SplitOutcome.returned sample_ops sample_counters ∧
    ((∀ seg ∈ segments sample_ops, (seg.length : Int) = 2 →
      seg.map (fun w => w.pict_type)
        = (List.replicate ((2 : Int) / 2).toNat
            (PictType.I :: List.replicate ((2 : Int) - 1).toNat PictType.P)).flatten) ∧
    (∀ (i : Nat) (w : WrittenFrame Unit), (segments sample_ops).flatten[i]? = some w →
      (w.pict_type = PictType.I ↔ (i : Int) % 2 = 0))) :=
  ⟨by decide, by decide, by decide, by decide, by decide,
    C11_gop_boundaries 2 2 0 (-1) [(), (), ()] sample_ops sample_counters (by decide)
      (by decide) (by decide) (by decide) (by decide)⟩

/-- Claim C12: in every run of `split_video` with `chunk_size > 0` in which the
`int` product `(chunk_count-1) * chunk_size` of the summary does not overflow,
the equation `frame_count = (chunk_count - 1) * chunk_size + out_frame_num`
holds on entry to the main loop and at the end of every iteration, the last of
these states is the one the summary prints, and the total printed in the
summary equals the count of frames read printed before it. -/
theorem C12_summary_total {α : Type} (gop_size chunk_size skip length : Int) (dc : List α)
    (ops : List (SinkOp α)) (st : Counters) (hchunk : 0 < chunk_size)
    (hrun : split_video gop_size chunk_size skip length dc = SplitOutcome.returned ops st)
    (hfit : (st.chunk_count - 1) * chunk_size < 2 ^ 31) :
    (∀ s ∈ initial_counters ::
        loop_states gop_size chunk_size length (dc.drop skip.toNat) initial_counters,
      s.frame_count = (s.chunk_count - 1) * chunk_size + s.out_frame_num) ∧
    (initial_counters ::
        loop_states gop_size chunk_size length (dc.drop skip.toNat) initial_counters).getLast?
      = some st ∧
    summary_total chunk_size st = some (summary_read st) := by
  have h0 : counters_balanced chunk_size initial_counters := by
    simp [counters_balanced, initial_counters]
  have hall : ∀ s ∈ initial_counters ::
      loop_states gop_size chunk_size length (dc.drop skip.toNat) initial_counters,
      counters_balanced chunk_size s := by
    intro s hs
    rcases List.mem_cons.mp hs with e | e
    · rw [e]; exact h0
    · exact loop_states_balanced gop_size chunk_size length _ _ h0 s e
  obtain ⟨_, lops, hm, hr, _, _⟩ :=
    split_video_inv gop_size chunk_size skip length dc ops st hrun
  have hlast := loop_states_last gop_size chunk_size length (dc.drop skip.toNat)
    initial_counters lops st hm
  refine ⟨hall, hlast, ?_⟩
  have hbal : counters_balanced chunk_size st :=
    hall st (List.mem_of_getLast?_eq_some hlast)
  have hcc : 0 ≤ st.chunk_count - 1 := by
    have := ref_loop_mono (pict_of gop_size) chunk_size 0 (run_frames skip length dc)
      initial_counters
    rw [hr] at this
    simp only [initial_counters] at this
    omega
  have hprod : 0 ≤ (st.chunk_count - 1) * chunk_size :=
    Int.mul_nonneg hcc (le_of_lt hchunk)
  unfold summary_total c_int_mul summary_read
  rw [if_pos ⟨by omega, hfit⟩]
  simp only [Option.some.injEq]
  exact hbal.symm

/-- Claim C12 on the sample run (three frames, `gop_size = 2`, `chunk_size = 2`). -/
theorem C12_summary_total_witness :
    (0 : Int) < 2 ∧
    split_video 2 2 0 (-1) [(), (), ()] = SplitOutcome.returned sample_ops sample_counters ∧
    (sample_counters.chunk_count - 1) * 2 < 2 ^ 31 ∧
    ((∀ s ∈ initial_counters ::
        loop_states 2 2 (-1) ([(), (), ()].drop (0 : Int).toNat) initial_counters,
      s.frame_count = (s.chunk_count - 1) * 2 + s.out_frame_num) ∧
    (initial_counters ::
        loop_states 2 2 (-1) ([(), (), ()].drop (0 : Int).toNat) initial_counters).getLast?
      = some sample_counters ∧
    summary_total 2 sample_counters = some (summary_read sample_counters)) :=
  ⟨by decide, by decide, by decide,
    C12_summary_total 2 2 0 (-1) [(), (), ()] sample_ops sample_counters (by decide)
      (by decide) (by decide)⟩

end SplitVideo
